import Mathlib

/-!
Verification of the CHEOPS Ageing Monitoring data-analysis pipeline.

Shallow embedding of the pure algorithmic core of `data_loader.py` and
`functions.py`: identifier matching (`extract_tg_group`, `fuzzy_match_or_id`,
`get_or_id_from_filepath`), MAD-based outlier rejection
(`remove_outliers_array`), binned-noise and summary statistics
(`calculate_binned_noise`, `calculate_statistics`), and the final
record-assembly step of `load_data_for_analysis`.

Strings are modelled as `List Char`; floating-point samples are modelled as
exact rationals (`ℚ`), so every value is finite.  Statistics whose value is a
square root of a rational (standard deviation, binned noise) are represented
by the rational radicand (`StatVal.sqrtVal`), which determines the
nonnegative root uniquely.
-/

namespace CheopsAgeing

/-! ### Character-list helpers shared by the identifier functions -/

/-- Maximal leading run of ASCII digits, as captured by a greedy `\d+`. -/
def takeDigits : List Char → List Char
  | [] => []
  | c :: cs => if c.isDigit then c :: takeDigits cs else []

/-- Decimal value of a digit list, as produced by Python `int`. -/
def natOfDigits (ds : List Char) : Nat :=
  ds.foldl (fun n c => 10 * n + (c.toNat - 48)) 0

/-- True when the list starts with an ASCII digit. -/
def headIsDigit : List Char → Bool
  | [] => false
  | c :: _ => c.isDigit

/-- Digits captured by the leftmost match of `TG(\d+)` with `re.IGNORECASE`,
as `re.search` finds it in `extract_tg_group` (`data_loader.py`, line 53). -/
def findTGDigits : List Char → Option (List Char)
  | [] => none
  | c :: cs =>
    match cs with
    | [] => none
    | g :: rest =>
      if (c.toLower = 't' ∧ g.toLower = 'g') ∧ headIsDigit rest then
        some (takeDigits rest)
      else
        findTGDigits (g :: rest)

/-- `extract_tg_group` (`data_loader.py`, lines 43–64): the target-group
number is the whole digit run when it has at most 4 digits, else the
integer formed from its first 4 digits. -/
def extract_tg_group (s : List Char) : Option Nat :=
  match findTGDigits s with
  | some digits =>
    if digits.length ≤ 4 then some (natOfDigits digits)
    else some (natOfDigits (digits.take 4))
  | none => none

/-- `re.sub(r'_V\d+$', '', s)`: drop a trailing `_V<digits>` suffix
(uppercase `V`, at least one digit), otherwise leave the string unchanged. -/
def stripVersionSuffix (s : List Char) : List Char :=
  let r := s.reverse
  let ds := takeDigits r
  if ds.isEmpty then s
  else
    match r.drop ds.length with
    | 'V' :: '_' :: rest => rest.reverse
    | _ => s

/-- The whitespace set of Python `str.strip()`. -/
def pyIsSpace (c : Char) : Bool :=
  c = ' ' ∨ c = '\t' ∨ c = '\n' ∨ c = '\r' ∨ c = '\x0b' ∨ c = '\x0c'

/-- Python `str.strip()`: remove leading and trailing whitespace. -/
def pyStrip (s : List Char) : List Char :=
  ((s.dropWhile pyIsSpace).reverse.dropWhile pyIsSpace).reverse

/-- The normalisation `fuzzy_match_or_id` applies to each argument
(`data_loader.py`, lines 74–75): `re.sub(r'_V\d+$', '', x).lower().strip()`. -/
def normalizeOrId (s : List Char) : List Char :=
  pyStrip ((stripVersionSuffix s).map Char.toLower)

/-- Digits captured by the leftmost match of `(pr\d+)` on an
already-lowercased string (`data_loader.py`, lines 82–83). -/
def findPRDigits : List Char → Option (List Char)
  | [] => none
  | c :: cs =>
    match cs with
    | [] => none
    | r :: rest =>
      if (c = 'p' ∧ r = 'r') ∧ headIsDigit rest then
        some (takeDigits rest)
      else
        findPRDigits (r :: rest)

/-- Body of `fuzzy_match_or_id` applied to the two normalised identifiers:
exact match, else exact PR-segment match plus exact target-group match. -/
def fuzzyCore (s1 s2 : List Char) : Bool :=
  if s1 = s2 then true
  else
    match findPRDigits s1, findPRDigits s2 with
    | some p1, some p2 =>
      if p1 = p2 then
        match extract_tg_group s1, extract_tg_group s2 with
        | some t1, some t2 => t1 == t2
        | _, _ => false
      else false
    | _, _ => false

/-- `fuzzy_match_or_id` (`data_loader.py`, lines 67–101). -/
def fuzzy_match_or_id (a b : List Char) : Bool :=
  fuzzyCore (normalizeOrId a) (normalizeOrId b)

/-- `filepath.replace('\\', '/')`. -/
def slashify (s : List Char) : List Char :=
  s.map (fun c => if c = '\\' then '/' else c)

/-- Python `str.split('/')`. -/
def splitSlash : List Char → List (List Char)
  | [] => [[]]
  | c :: cs =>
    match splitSlash cs with
    | [] => [[]]
    | p :: ps => if c = '/' then [] :: p :: ps else (c :: p) :: ps

/-- Match of `PR\d+_TG\d+` anchored at the start of the list (case-sensitive,
as in `data_loader.py`, line 135); returns the matched characters.  Greedy
digit runs with no feasible backtracking: a shorter digit run would have to be
followed by `_`, which is not a digit. -/
def matchPRTGHere (s : List Char) : Option (List Char) :=
  match s with
  | 'P' :: 'R' :: rest =>
    let ds1 := takeDigits rest
    if ds1.isEmpty then none
    else
      match rest.drop ds1.length with
      | '_' :: 'T' :: 'G' :: rest2 =>
        let ds2 := takeDigits rest2
        if ds2.isEmpty then none
        else some ('P' :: 'R' :: (ds1 ++ '_' :: 'T' :: 'G' :: ds2))
      | _ => none
  | _ => none

/-- Leftmost match of `re.search(r'(PR\d+_TG\d+)', part)` in one path
component (case-sensitive). -/
def findPRTG : List Char → Option (List Char)
  | [] => none
  | c :: cs =>
    match matchPRTGHere (c :: cs) with
    | some m => some m
    | none => findPRTG cs

/-- `get_or_id_from_filepath` (`data_loader.py`, lines 126–138): the first
path component containing a `PR\d+_TG\d+` substring wins. -/
def get_or_id_from_filepath (filepath : List Char) : Option (List Char) :=
  (splitSlash (slashify filepath)).findSome? findPRTG

/-! ### Rational-arithmetic helpers for the numeric pipeline -/

/-- Insert into an ascending list, keeping it ascending. -/
def insertAsc (x : ℚ) : List ℚ → List ℚ
  | [] => [x]
  | y :: ys => if x ≤ y then x :: y :: ys else y :: insertAsc x ys

/-- Ascending sort, as `np.sort` produces for the median and percentiles. -/
def sortAsc : List ℚ → List ℚ
  | [] => []
  | x :: xs => insertAsc x (sortAsc xs)

/-- `np.min` over a nonempty array (`0` for the empty array, which the code
never queries). -/
def listMin : List ℚ → ℚ
  | [] => 0
  | x :: xs => xs.foldl min x

/-- `np.max` over a nonempty array (`0` for the empty array, which the code
never queries). -/
def listMax : List ℚ → ℚ
  | [] => 0
  | x :: xs => xs.foldl max x

/-- `np.mean`: sum divided by length. -/
def mean (l : List ℚ) : ℚ :=
  l.sum / l.length

/-- `np.median` (equally `np.nanmedian` on NaN-free data): middle element of
the sorted list for odd length, average of the two middle elements for even
length.  The samples reaching it in the pipeline are nonempty and NaN-free,
so the `0` returned for `[]` is never observed. -/
def median (l : List ℚ) : ℚ :=
  let s := sortAsc l
  let n := s.length
  if n % 2 = 1 then s.getD (n / 2) 0
  else (s.getD (n / 2 - 1) 0 + s.getD (n / 2) 0) / 2

/-- Population variance, the square of `np.std` / `np.nanstd`. -/
def popVariance (l : List ℚ) : ℚ :=
  mean (l.map fun x => (x - mean l) ^ 2)

/-- `k`-th central moment, the building block of `scipy.stats.skew` and
`scipy.stats.kurtosis` (biased sample estimators). -/
def centralMoment (l : List ℚ) (k : ℕ) : ℚ :=
  mean (l.map fun x => (x - mean l) ^ k)

/-- `np.percentile(l, p)` with the default linear interpolation between the
order statistics at positions `⌊h⌋` and `⌊h⌋ + 1`, where `h = (n-1)·p/100`. -/
def percentile (l : List ℚ) (p : ℚ) : ℚ :=
  let s := sortAsc l
  let n := s.length
  let h := ((n : ℚ) - 1) * p / 100
  let lo := (Int.floor h).toNat
  let x0 := s.getD lo 0
  let x1 := s.getD (lo + 1) x0
  x0 + (h - (lo : ℚ)) * (x1 - x0)

/-- The MAD-to-sigma consistency constant `1.4826` of
`remove_outliers_array`, as an exact rational. -/
def madScale : ℚ := 14826 / 10000

/-- `data[mask]`: the elements of `data` at the `true` positions of `mask`,
in their original order. -/
def applyMask : List ℚ → List Bool → List ℚ
  | x :: xs, b :: bs => if b then x :: applyMask xs bs else applyMask xs bs
  | _, _ => []

/-- `remove_outliers_array` (`data_loader.py`, lines 227–243): median/MAD
robust rejection.  The input samples are NaN-free (the caller removes NaN
first), so `np.nanmedian` coincides with `median`. -/
def remove_outliers_array (data : List ℚ) (sigma_threshold : ℚ) : List ℚ × List Bool :=
  let med := median data
  let mad := median (data.map fun x => |x - med|)
  let robust_sigma := madScale * mad
  if robust_sigma = 0 then (data, List.replicate data.length true)
  else
    let lower := med - sigma_threshold * robust_sigma
    let upper := med + sigma_threshold * robust_sigma
    let mask := data.map fun x => decide (lower ≤ x) && decide (x ≤ upper)
    (applyMask data mask, mask)

/-! ### Binned noise (`functions.py`, lines 343–378) -/

/-- The per-bin means collected by the loop of `calculate_binned_noise`:
bin edges are `t0 + i·w`; every bin is right-open except the last, which is
closed; empty bins contribute no mean.  `times` and `data` are paired
positionally, as the numpy boolean mask pairs them. -/
def binMeansList (data times : List ℚ) (w : ℚ) : List ℚ :=
  let t0 := listMin times
  let nBins := (Int.ceil ((listMax times - t0) / w)).toNat
  (List.range nBins).filterMap fun (i : ℕ) =>
    let lo := t0 + (i : ℚ) * w
    let hi := t0 + ((i : ℚ) + 1) * w
    let vs := ((times.zip data).filter fun pt =>
      decide (lo ≤ pt.1) && (if i = nBins - 1 then decide (pt.1 ≤ hi) else decide (pt.1 < hi))).map Prod.snd
    if vs.isEmpty then none else some (mean vs)

/-- `calculate_binned_noise` (`functions.py`, lines 343–378).  `none` models
the NaN returns; a `some` value is the population variance of the per-bin
means, i.e. the square of the `np.nanstd` the code returns (the root is
determined by its radicand).  The non-finiteness guard on `t0`, `t1` is
vacuous over `ℚ`. -/
def calculate_binned_noise (data times : List ℚ) (w : ℚ) : Option ℚ :=
  if data.length < 2 ∨ times.length < 2 then none
  else if listMax times ≤ listMin times then none
  else if Int.ceil ((listMax times - listMin times) / w) < 2 then none
  else
    let bm := binMeansList data times w
    if bm.length < 2 then none else some (popVariance bm)

/-! ### Summary statistics (`functions.py`, lines 384–422) -/

/-- Value of one statistic.  `sqrtVal v` encodes the nonnegative square root
of `v` (standard deviation, binned noise); `skewVal m2 m3` encodes
`m3 / m2^(3/2)` (`scipy.stats.skew`, biased); `kurtVal m2 m4` encodes
`m4 / m2² - 3` (`scipy.stats.kurtosis`, Fisher, biased); `nan` encodes the
IEEE NaN the code stores for undefined statistics. -/
inductive StatVal where
  | nan : StatVal
  | val : ℚ → StatVal
  | sqrtVal : ℚ → StatVal
  | skewVal : ℚ → ℚ → StatVal
  | kurtVal : ℚ → ℚ → StatVal
deriving DecidableEq

/-- `STATISTICS_METRICS` from `config.py` (lines 15–16). -/
def STATISTICS_METRICS : List String :=
  ["mean", "median", "sigma", "mad", "min", "max", "ptp", "p01", "p99", "skew", "kurtosis"]

/-- The binned-noise entry of `calculate_statistics`: NaN unless a time
array of exactly the sample's length is supplied, in which case it is the
result of `calculate_binned_noise` (NaN when that is `none`). -/
def bnStat (data : List ℚ) (times : Option (List ℚ)) (w : ℚ) : StatVal :=
  match times with
  | none => StatVal.nan
  | some ts =>
    if ts.length = data.length then
      match calculate_binned_noise data ts w with
      | none => StatVal.nan
      | some v => StatVal.sqrtVal v
    else StatVal.nan

/-- `calculate_statistics` (`functions.py`, lines 384–422), as the ordered
association list of `(key, value)` pairs the Python dict holds.  The input
is the already-finite sample (`data[np.isfinite(data)]` is the identity over
`ℚ`).  For the empty sample the code builds only the `STATISTICS_METRICS`
keys; otherwise it builds the eleven statistics followed by the three
binned-noise entries. -/
def calculate_statistics (data : List ℚ) (pfx : String) (times : Option (List ℚ)) :
    List (String × StatVal) :=
  if data = [] then STATISTICS_METRICS.map fun m => (pfx ++ "_" ++ m, StatVal.nan)
  else
    [(pfx ++ "_mean", StatVal.val (mean data)),
     (pfx ++ "_median", StatVal.val (median data)),
     (pfx ++ "_sigma", StatVal.sqrtVal (popVariance data)),
     (pfx ++ "_mad", StatVal.val (median (data.map fun x => |x - median data|))),
     (pfx ++ "_min", StatVal.val (listMin data)),
     (pfx ++ "_max", StatVal.val (listMax data)),
     (pfx ++ "_ptp", StatVal.val (listMax data - listMin data)),
     (pfx ++ "_p01", StatVal.val (percentile data 1)),
     (pfx ++ "_p99", StatVal.val (percentile data 99)),
     (pfx ++ "_skew",
       if 3 ≤ data.length then StatVal.skewVal (centralMoment data 2) (centralMoment data 3)
       else StatVal.nan),
     (pfx ++ "_kurtosis",
       if 4 ≤ data.length then StatVal.kurtVal (centralMoment data 2) (centralMoment data 4)
       else StatVal.nan),
     (pfx ++ "_bin_noise_1h", bnStat data times 1),
     (pfx ++ "_bin_noise_3h", bnStat data times 3),
     (pfx ++ "_bin_noise_6h", bnStat data times 6)]

/-! ### Dataset assembly (`data_loader.py`, lines 524–530) -/

/-- One per-file record, as assembled by `load_data_for_analysis`. -/
structure ObservationRecord where
  target : String
  dateOfVisit : ℤ
  sourceFile : String
  sampleCount : ℕ
  stats : List (String × StatVal)

/-- Comparison used by the `sort_values('Date of visit')` step. -/
def dateLe (a b : ObservationRecord) : Bool :=
  a.dateOfVisit ≤ b.dateOfVisit

/-- Final assembly step of `load_data_for_analysis` (`data_loader.py`,
lines 524–530): an empty record list yields the empty dataset, otherwise
the records are sorted ascending by date of visit. -/
def load_data_assemble (records : List ObservationRecord) : List ObservationRecord :=
  if records.isEmpty then [] else records.mergeSort dateLe

/-! ### Specification-side definitions used to state the claims -/

/-- The comparison form of clause (a) of the ORID-equivalence rule (§3 of the
spec): the identifier with its trailing `_V<digits>` version suffix stripped,
lowercased for the case-insensitive identity check. -/
def specStripCmp (s : List Char) : List Char :=
  (stripVersionSuffix s).map Char.toLower

/-- A string is ORID-shaped when its normalised form contains a `pr<digits>`
segment and a `tg<digits>` target-group run, as the `PR<digits>_TG<digits>`
format of §3 guarantees. -/
def isOrIdLike (s : List Char) : Prop :=
  (findPRDigits (normalizeOrId s)).isSome = true ∧
  (findTGDigits (normalizeOrId s)).isSome = true

instance (s : List Char) : Decidable (isOrIdLike s) :=
  inferInstanceAs (Decidable (_ ∧ _))

/-- ORID equivalence as §3 of the spec states it: identical after
version-suffix stripping (case-insensitively), or equal `PR` digit segments
and equal target-group numbers. -/
def specEquivalent (a b : List Char) : Prop :=
  specStripCmp a = specStripCmp b ∨
  ((∃ p, findPRDigits (normalizeOrId a) = some p ∧ findPRDigits (normalizeOrId b) = some p) ∧
   (∃ t, extract_tg_group (normalizeOrId a) = some t ∧ extract_tg_group (normalizeOrId b) = some t))

/-- Modelled from the spec (§4.1): the case-insensitive variant of the
`PR\d+_TG\d+` component match that `extractIdentifierFromPath` is specified
to perform.  It is used only to exhibit where the code, which matches
case-sensitively, deviates from this description. -/
def matchPRTGHereCI : List Char → Option (List Char)
  | c1 :: c2 :: rest =>
    if c1.toLower = 'p' ∧ c2.toLower = 'r' then
      let ds1 := takeDigits rest
      if ds1.isEmpty then none
      else
        match rest.drop ds1.length with
        | u :: t :: g :: rest2 =>
          if u = '_' ∧ t.toLower = 't' ∧ g.toLower = 'g' then
            let ds2 := takeDigits rest2
            if ds2.isEmpty then none
            else some (c1 :: c2 :: (ds1 ++ u :: t :: g :: ds2))
          else none
        | _ => none
    else none
  | _ => none

/-- Modelled from the spec (§4.1): leftmost case-insensitive
`PR\d+_TG\d+` match in one component. -/
def findPRTGCI : List Char → Option (List Char)
  | [] => none
  | c :: cs =>
    match matchPRTGHereCI (c :: cs) with
    | some m => some m
    | none => findPRTGCI cs

/-- Modelled from the spec (§4.1): `extractIdentifierFromPath` with the
case-insensitive component scan the spec describes. -/
def extractIdFromPathCI (p : List Char) : Option (List Char) :=
  (splitSlash (slashify p)).findSome? findPRTGCI

/-! ### Helper lemmas -/

theorem extract_tg_group_isSome {s : List Char}
    (h : (findTGDigits s).isSome = true) : ∃ t, extract_tg_group s = some t := by
  obtain ⟨ds, hds⟩ := Option.isSome_iff_exists.mp h
  unfold extract_tg_group
  rw [hds]
  by_cases hl : ds.length ≤ 4 <;> simp [hl]

theorem fuzzyCore_symm (s t : List Char) : fuzzyCore s t = fuzzyCore t s := by
  unfold fuzzyCore
  by_cases hst : s = t
  · subst hst; simp
  · rw [if_neg hst, if_neg fun h => hst h.symm]
    cases hp : findPRDigits s <;> cases hq : findPRDigits t
    · rfl
    · rfl
    · rfl
    · rename_i p q
      dsimp only
      by_cases hpq : p = q
      · subst hpq
        rw [if_pos rfl, if_pos rfl]
        cases h1 : extract_tg_group s <;> cases h2 : extract_tg_group t
        · rfl
        · rfl
        · rfl
        · rename_i t1 t2
          dsimp only
          by_cases h12 : t1 = t2
          · subst h12; rfl
          · rw [beq_eq_false_iff_ne.mpr h12, beq_eq_false_iff_ne.mpr fun h => h12 h.symm]
      · rw [if_neg hpq, if_neg fun h => hpq h.symm]

theorem fuzzyCore_refl (s : List Char) : fuzzyCore s s = true := by
  unfold fuzzyCore
  rw [if_pos rfl]

theorem findSome?_eq_some_split {α β : Type} (f : α → Option β) (l : List α) (b : β)
    (h : l.findSome? f = some b) :
    ∃ l1 x l2, l = l1 ++ x :: l2 ∧ (∀ y ∈ l1, f y = none) ∧ f x = some b := by
  induction l with
  | nil => simp [List.findSome?] at h
  | cons a as ih =>
    rw [List.findSome?_cons] at h
    cases hfa : f a with
    | some c =>
      rw [hfa] at h
      exact ⟨[], a, as, rfl, by simp, by rw [hfa]; exact h⟩
    | none =>
      rw [hfa] at h
      obtain ⟨l1, x, l2, hl, h1, h2⟩ := ih h
      refine ⟨a :: l1, x, l2, by rw [hl]; rfl, ?_, h2⟩
      intro y hy
      rcases List.mem_cons.mp hy with hy | hy
      · rw [hy]; exact hfa
      · exact h1 y hy

/-! ### Claim theorems -/

/-- C5: for every string containing a `TG<digits>` run, `extract_tg_group`
returns the whole integer of the (first) digit run when it has at most 4
digits, and the integer formed from its first 4 digits otherwise; in
particular `TG0001 → 1`, `TG000101 → 1`, `TG001001 → 10`, `TG001802 → 18`. -/
theorem extract_tg_group_spec (s ds : List Char) (h : findTGDigits s = some ds) :
    extract_tg_group s =
      some (if ds.length ≤ 4 then natOfDigits ds else natOfDigits (ds.take 4)) ∧
    extract_tg_group ("TG0001".toList) = some 1 ∧
    extract_tg_group ("TG000101".toList) = some 1 ∧
    extract_tg_group ("TG001001".toList) = some 10 ∧
    extract_tg_group ("TG001802".toList) = some 18 := by
  refine ⟨?_, by decide, by decide, by decide, by decide⟩
  unfold extract_tg_group
  rw [h]
  by_cases hl : ds.length ≤ 4 <;> simp [hl]

/-- Witness for C5 at the concrete long-format run `TG001001`. -/
theorem extract_tg_group_spec_witness :
    findTGDigits ("TG001001".toList) = some ("001001".toList) ∧
    extract_tg_group ("TG001001".toList) = some 10 := by
  refine ⟨by decide, ?_⟩
  rw [(extract_tg_group_spec ("TG001001".toList) ("001001".toList) (by decide)).1]
  decide

/-- C6: `fuzzy_match_or_id` is symmetric in its two arguments, and reflexive
(every identifier matches itself, the version-suffix stripping being applied
to both sides identically). -/
theorem fuzzy_match_symm_refl :
    (∀ a b : List Char, fuzzy_match_or_id a b = fuzzy_match_or_id b a) ∧
    (∀ a : List Char, fuzzy_match_or_id a a = true) :=
  ⟨fun _ _ => fuzzyCore_symm _ _, fun _ => fuzzyCore_refl _⟩

/-- C1: for ORID-shaped strings, `fuzzy_match_or_id` returns `true` exactly
when the two identifiers are identical after version-suffix stripping
(case-insensitively) or their `pr<digits>` segments and target-group numbers
agree; the three concrete examples of the spec evaluate as stated. -/
theorem fuzzy_match_or_id_spec (a b : List Char)
    (ha : isOrIdLike a) (hb : isOrIdLike b) :
    (fuzzy_match_or_id a b = true ↔ specEquivalent a b) ∧
    fuzzy_match_or_id ("PR300005_TG0001".toList) ("PR300005_TG000101".toList) = true ∧
    fuzzy_match_or_id ("PR300005_TG0001".toList) ("PR300005_TG001001".toList) = false ∧
    fuzzy_match_or_id ("PR300005_TG0001".toList) ("PR400005_TG0001".toList) = false := by
  refine ⟨?_, by decide, by decide, by decide⟩
  obtain ⟨hpa, hta⟩ := ha
  obtain ⟨hpb, htb⟩ := hb
  obtain ⟨p1, hp1⟩ := Option.isSome_iff_exists.mp hpa
  obtain ⟨p2, hp2⟩ := Option.isSome_iff_exists.mp hpb
  obtain ⟨t1, ht1⟩ := extract_tg_group_isSome hta
  obtain ⟨t2, ht2⟩ := extract_tg_group_isSome htb
  have hnorm : ∀ s : List Char, normalizeOrId s = pyStrip (specStripCmp s) := fun _ => rfl
  constructor
  · intro hcode
    unfold fuzzy_match_or_id fuzzyCore at hcode
    by_cases hn : normalizeOrId a = normalizeOrId b
    · right
      refine ⟨⟨p1, hp1, ?_⟩, ⟨t1, ht1, ?_⟩⟩
      · rw [← hn]; exact hp1
      · rw [← hn]; exact ht1
    · rw [if_neg hn, hp1, hp2] at hcode
      dsimp only at hcode
      by_cases hp : p1 = p2
      · subst hp
        rw [if_pos rfl, ht1, ht2] at hcode
        dsimp only at hcode
        right
        exact ⟨⟨p1, hp1, hp2⟩, ⟨t1, ht1, by rw [ht2, beq_iff_eq.mp hcode]⟩⟩
      · rw [if_neg hp] at hcode
        exact absurd hcode (by simp)
  · intro hspec
    unfold fuzzy_match_or_id fuzzyCore
    rcases hspec with hstrip | ⟨⟨p, hpa', hpb'⟩, ⟨t, hta', htb'⟩⟩
    · have hn : normalizeOrId a = normalizeOrId b := by
        rw [hnorm a, hnorm b, hstrip]
      rw [if_pos hn]
    · by_cases hn : normalizeOrId a = normalizeOrId b
      · rw [if_pos hn]
      · rw [if_neg hn, hpa', hpb']
        dsimp only
        rw [if_pos rfl, hta', htb']
        dsimp only
        simp

/-- Witness for C1: both hypotheses hold at the spec's first example pair
and the matcher accepts it. -/
theorem fuzzy_match_or_id_spec_witness :
    isOrIdLike ("PR300005_TG0001".toList) ∧
    isOrIdLike ("PR300005_TG000101".toList) ∧
    fuzzy_match_or_id ("PR300005_TG0001".toList) ("PR300005_TG000101".toList) = true :=
  ⟨by decide, by decide,
    (fuzzy_match_or_id_spec ("PR300005_TG0001".toList) ("PR300005_TG000101".toList)
      (by decide) (by decide)).2.1⟩

/-- C8 counterexample: the code's scan is case-sensitive, so a lowercase
`pr…_tg…` path component is not found, although the spec's case-insensitive
scan finds it. -/
theorem get_or_id_case_counterexample :
    get_or_id_from_filepath ("data/pr300005_tg000101/file.fits".toList) = none ∧
    extractIdFromPathCI ("data/pr300005_tg000101/file.fits".toList) =
      some ("pr300005_tg000101".toList) :=
  ⟨by decide, by decide⟩

/-- C8 amended: `get_or_id_from_filepath` scans the path's components for a
substring matching `PR<digits>_TG<digits>` case-SENSITIVELY; the matched
identifier of the first component containing one is returned, and `none`
when no component matches. -/
theorem get_or_id_from_filepath_spec (p : List Char) :
    (get_or_id_from_filepath p = none ↔
      ∀ part ∈ splitSlash (slashify p), findPRTG part = none) ∧
    ∀ m, get_or_id_from_filepath p = some m →
      ∃ l1 part l2, splitSlash (slashify p) = l1 ++ part :: l2 ∧
        (∀ q ∈ l1, findPRTG q = none) ∧ findPRTG part = some m := by
  constructor
  · unfold get_or_id_from_filepath
    exact List.findSome?_eq_none_iff
  · intro m hm
    exact findSome?_eq_some_split findPRTG _ m hm

/-- Witness for C8 (amended) at a concrete uppercase path. -/
theorem get_or_id_from_filepath_spec_witness :
    ∃ l1 part l2,
      splitSlash (slashify ("data/PR300005_TG000101_V0300/file.fits".toList)) =
        l1 ++ part :: l2 ∧
      (∀ q ∈ l1, findPRTG q = none) ∧
      findPRTG part = some ("PR300005_TG000101".toList) :=
  (get_or_id_from_filepath_spec ("data/PR300005_TG000101_V0300/file.fits".toList)).2
    ("PR300005_TG000101".toList) (by decide)

/-! ### Helper lemmas for the outlier filter -/

theorem applyMask_map (p : ℚ → Bool) (l : List ℚ) :
    applyMask l (l.map p) = l.filter p := by
  induction l with
  | nil => rfl
  | cons x xs ih =>
    by_cases h : p x <;> simp [applyMask, List.filter_cons, h, ih]

theorem applyMask_replicate_true (l : List ℚ) :
    applyMask l (List.replicate l.length true) = l := by
  induction l with
  | nil => rfl
  | cons x xs ih => simp [applyMask, List.replicate, ih]

theorem applyMask_sublist (l : List ℚ) (m : List Bool) :
    (applyMask l m).Sublist l := by
  induction l generalizing m with
  | nil => cases m <;> simp [applyMask]
  | cons x xs ih =>
    cases m with
    | nil => simp [applyMask]
    | cons b bs =>
      cases b with
      | true => simpa [applyMask] using (ih bs).cons₂ x
      | false => simpa [applyMask] using (ih bs).cons x

/-- C2: `remove_outliers_array` computes the median, the MAD and the robust
sigma `1.4826 × MAD`; when the robust sigma is exactly zero it returns the
input unchanged with an all-true mask, otherwise it keeps exactly the values
lying in the closed interval `[median - k·σ, median + k·σ]`. -/
theorem remove_outliers_array_spec (data : List ℚ) (k : ℚ) (_h : data ≠ []) :
    (madScale * median (data.map fun x => |x - median data|) = 0 →
      remove_outliers_array data k = (data, List.replicate data.length true)) ∧
    (madScale * median (data.map fun x => |x - median data|) ≠ 0 →
      remove_outliers_array data k =
        (data.filter fun x =>
           decide (median data - k * (madScale * median (data.map fun y => |y - median data|)) ≤ x ∧
                   x ≤ median data + k * (madScale * median (data.map fun y => |y - median data|))),
         data.map fun x =>
           decide (median data - k * (madScale * median (data.map fun y => |y - median data|)) ≤ x ∧
                   x ≤ median data + k * (madScale * median (data.map fun y => |y - median data|))))) := by
  constructor
  · intro hz
    unfold remove_outliers_array
    dsimp only
    rw [if_pos hz]
  · intro hnz
    unfold remove_outliers_array
    dsimp only
    rw [if_neg hnz]
    have hfun : ∀ x : ℚ,
        (decide (median data - k * (madScale * median (data.map fun y => |y - median data|)) ≤ x) &&
         decide (x ≤ median data + k * (madScale * median (data.map fun y => |y - median data|)))) =
        decide (median data - k * (madScale * median (data.map fun y => |y - median data|)) ≤ x ∧
                x ≤ median data + k * (madScale * median (data.map fun y => |y - median data|))) := by
      intro x
      by_cases h1 : median data - k * (madScale * median (data.map fun y => |y - median data|)) ≤ x <;>
        by_cases h2 : x ≤ median data + k * (madScale * median (data.map fun y => |y - median data|)) <;>
        simp [h1, h2]
    refine Prod.ext ?_ ?_
    · rw [applyMask_map]
      exact List.filter_congr fun x _ => hfun x
    · exact List.map_congr_left fun x _ => hfun x

/-- Witness for C2: the extreme value `100` is rejected at `k = 3`. -/
theorem remove_outliers_array_spec_witness :
    ([1, 2, 100] : List ℚ) ≠ [] ∧
    remove_outliers_array [1, 2, 100] 3 = ([1, 2], [true, true, false]) := by
  constructor
  · simp
  · have hnz : madScale * median (([1, 2, 100] : List ℚ).map fun x => |x - median [1, 2, 100]|) ≠ 0 := by
      norm_num [median, sortAsc, insertAsc, madScale]
    rw [(remove_outliers_array_spec [1, 2, 100] 3 (by simp)).2 hnz]
    norm_num [median, sortAsc, insertAsc, madScale]

/-- C9: the mask returned by `remove_outliers_array` has the length of the
input, and the filtered output is exactly the input restricted to the
mask-true positions (hence a sublist of the input), in both branches. -/
theorem remove_outliers_array_mask_invariant (data : List ℚ) (k : ℚ) :
    (remove_outliers_array data k).2.length = data.length ∧
    (remove_outliers_array data k).1 = applyMask data (remove_outliers_array data k).2 ∧
    ((remove_outliers_array data k).1).Sublist data := by
  unfold remove_outliers_array
  dsimp only
  by_cases hz : madScale * median (data.map fun x => |x - median data|) = 0
  · rw [if_pos hz]
    exact ⟨by simp, (applyMask_replicate_true data).symm, List.Sublist.refl data⟩
  · rw [if_neg hz]
    exact ⟨by simp, rfl, applyMask_sublist data _⟩

/-! ### Helper lemmas for the binned noise -/

theorem binMeansList_of_span_nonpos (data times : List ℚ) (w : ℚ) (hw : 0 < w)
    (hspan : listMax times - listMin times ≤ 0) :
    binMeansList data times w = [] := by
  have hdiv : (listMax times - listMin times) / w ≤ 0 :=
    div_nonpos_of_nonpos_of_nonneg hspan hw.le
  have hceil : ⌈(listMax times - listMin times) / w⌉ ≤ 0 :=
    Int.ceil_le.mpr (by exact_mod_cast hdiv)
  unfold binMeansList
  dsimp only
  rw [Int.toNat_of_nonpos hceil]
  rfl

theorem binMeansList_length_le (data times : List ℚ) (w : ℚ) :
    (binMeansList data times w).length ≤
      (⌈(listMax times - listMin times) / w⌉).toNat := by
  unfold binMeansList
  dsimp only
  exact le_trans (List.length_filterMap_le _ _) (le_of_eq (List.length_range _))

/-- C3: `calculate_binned_noise` partitions `[min(times), max(times)]` into
`⌈span/w⌉` equal-width right-open bins (the last closed), averages the values
whose time falls in each non-empty bin, and returns the standard deviation of
those per-bin means — here represented by its square `popVariance`, which
determines it — and returns NaN (`none`) exactly when fewer than 2 non-empty
bins result. -/
theorem calculate_binned_noise_spec (data times : List ℚ) (w : ℚ)
    (hlen : data.length = times.length) (hw : 0 < w) :
    calculate_binned_noise data times w =
      if (binMeansList data times w).length < 2 then none
      else some (popVariance (binMeansList data times w)) := by
  unfold calculate_binned_noise
  by_cases hsmall : data.length < 2 ∨ times.length < 2
  · rw [if_pos hsmall]
    have htlen : times.length < 2 := by omega
    have hspan0 : listMax times - listMin times ≤ 0 := by
      rcases times with _ | ⟨t, _ | ⟨u, rest⟩⟩
      · simp [listMin, listMax]
      · simp [listMin, listMax]
      · simp only [List.length_cons] at htlen
        omega
    rw [binMeansList_of_span_nonpos data times w hw hspan0]
    simp
  · rw [if_neg hsmall]
    by_cases hord : listMax times ≤ listMin times
    · rw [if_pos hord]
      rw [binMeansList_of_span_nonpos data times w hw (sub_nonpos.mpr hord)]
      simp
    · rw [if_neg hord]
      by_cases hc2 : ⌈(listMax times - listMin times) / w⌉ < 2
      · rw [if_pos hc2]
        have h1 := binMeansList_length_le data times w
        have h2 : (⌈(listMax times - listMin times) / w⌉).toNat ≤ 1 :=
          Int.toNat_le.mpr (by omega)
        rw [if_pos (by omega : (binMeansList data times w).length < 2)]
      · rw [if_neg hc2]

/-- Witness for C3: four evenly spread samples over a 3-hour span with
2-hour bins give two bin means `1` and `3`, whose variance is `1`. -/
theorem calculate_binned_noise_spec_witness :
    ([1, 1, 3, 3] : List ℚ).length = ([0, 1, 2, 3] : List ℚ).length ∧
    calculate_binned_noise [1, 1, 3, 3] [0, 1, 2, 3] 2 = some 1 := by
  refine ⟨rfl, ?_⟩
  rw [calculate_binned_noise_spec [1, 1, 3, 3] [0, 1, 2, 3] 2 rfl (by norm_num)]
  have hc : ⌈(3:ℚ) / 2⌉ = 2 := by rw [Int.ceil_eq_iff]; norm_num
  have htn : (⌈(3:ℚ) / 2⌉).toNat = 2 := by rw [hc]; rfl
  have hb : binMeansList [1, 1, 3, 3] [0, 1, 2, 3] 2 = [1, 3] := by
    simp only [binMeansList, listMin, listMax]
    norm_num [htn, List.range_succ, List.zip, List.zipWith, mean]
    norm_num [List.filterMap_cons, mean]
  rw [hb]
  norm_num [popVariance, mean]

/-- C4 counterexample: the binned-noise key is present for a one-element
sample but absent from the empty sample's result, so the empty sample's key
set is not the key set of a non-empty sample. -/
theorem calculate_statistics_schema_counterexample :
    ("f_bin_noise_1h" ∈ (calculate_statistics [1] "f" none).map Prod.fst) ∧
    ¬ ("f_bin_noise_1h" ∈ (calculate_statistics [] "f" none).map Prod.fst) := by
  constructor
  · simp [calculate_statistics]
  · simp [calculate_statistics, STATISTICS_METRICS]

/-- C4 amended: for the empty (cleaned) sample `calculate_statistics` returns
exactly the `STATISTICS_METRICS` keys, each with value NaN; the three
binned-noise keys are omitted there, while every non-empty sample's key set
is those eleven keys followed by the three binned-noise keys. -/
theorem calculate_statistics_schema (pfx : String) :
    calculate_statistics [] pfx none =
      STATISTICS_METRICS.map (fun m => (pfx ++ "_" ++ m, StatVal.nan)) ∧
    ∀ (data : List ℚ) (times : Option (List ℚ)), data ≠ [] →
      (calculate_statistics data pfx times).map Prod.fst =
        (STATISTICS_METRICS.map fun m => pfx ++ "_" ++ m) ++
        [pfx ++ "_bin_noise_1h", pfx ++ "_bin_noise_3h", pfx ++ "_bin_noise_6h"] := by
  constructor
  · simp [calculate_statistics]
  · intro data times hne
    unfold calculate_statistics
    rw [if_neg hne]
    simp [STATISTICS_METRICS, String.append_assoc]

/-- Witness for C4 (amended) at a one-element sample. -/
theorem calculate_statistics_schema_witness :
    ([1] : List ℚ) ≠ [] ∧
    (calculate_statistics [1] "f" none).map Prod.fst =
      (STATISTICS_METRICS.map fun m => "f" ++ "_" ++ m) ++
      ["f" ++ "_bin_noise_1h", "f" ++ "_bin_noise_3h", "f" ++ "_bin_noise_6h"] :=
  ⟨by simp, (calculate_statistics_schema "f").2 [1] none (by simp)⟩

/-- C10: for every non-empty sample the three binned-noise entries are
present in the result of `calculate_statistics`; their value is NaN whenever
no time array is supplied or its length differs from the sample's, and the
binned noise is computed (via `calculate_binned_noise`) exactly when the
lengths match. -/
theorem calculate_statistics_bin_noise (data : List ℚ) (pfx : String)
    (times : Option (List ℚ)) (h : data ≠ []) :
    ((pfx ++ "_bin_noise_1h", bnStat data times 1) ∈ calculate_statistics data pfx times ∧
     (pfx ++ "_bin_noise_3h", bnStat data times 3) ∈ calculate_statistics data pfx times ∧
     (pfx ++ "_bin_noise_6h", bnStat data times 6) ∈ calculate_statistics data pfx times) ∧
    (∀ w : ℚ, bnStat data none w = StatVal.nan) ∧
    (∀ (ts : List ℚ) (w : ℚ), ts.length ≠ data.length →
      bnStat data (some ts) w = StatVal.nan) ∧
    (∀ (ts : List ℚ) (w : ℚ), ts.length = data.length →
      bnStat data (some ts) w =
        match calculate_binned_noise data ts w with
        | none => StatVal.nan
        | some v => StatVal.sqrtVal v) := by
  refine ⟨?_, ?_, ?_, ?_⟩
  · unfold calculate_statistics
    rw [if_neg h]
    refine ⟨?_, ?_, ?_⟩ <;> simp
  · intro w
    rfl
  · intro ts w hlen
    unfold bnStat
    dsimp only
    rw [if_neg hlen]
  · intro ts w hlen
    unfold bnStat
    dsimp only
    rw [if_pos hlen]

/-- Witness for C10 at a two-element sample without a time array. -/
theorem calculate_statistics_bin_noise_witness :
    ([1, 2] : List ℚ) ≠ [] ∧
    ("f" ++ "_bin_noise_1h", bnStat [1, 2] none 1) ∈ calculate_statistics [1, 2] "f" none ∧
    bnStat ([1, 2] : List ℚ) none 1 = StatVal.nan :=
  ⟨by simp,
   (calculate_statistics_bin_noise [1, 2] "f" none (by simp)).1.1,
   (calculate_statistics_bin_noise [1, 2] "f" none (by simp)).2.1 1⟩

/-- C7: assembling zero records yields an empty dataset; assembling any
record list yields a dataset with exactly as many rows, whose dates of visit
are in non-decreasing order. -/
theorem load_data_assemble_spec :
    load_data_assemble [] = [] ∧
    (∀ rs : List ObservationRecord, (load_data_assemble rs).length = rs.length) ∧
    (∀ rs : List ObservationRecord,
      ((load_data_assemble rs).map ObservationRecord.dateOfVisit).Chain' (· ≤ ·)) := by
  refine ⟨by simp [load_data_assemble], ?_, ?_⟩
  · intro rs
    unfold load_data_assemble
    by_cases h : rs.isEmpty
    · rw [if_pos h]
      rw [List.isEmpty_iff] at h
      rw [h]
    · rw [if_neg h]
      exact List.length_mergeSort rs
  · intro rs
    unfold load_data_assemble
    by_cases h : rs.isEmpty
    · rw [if_pos h]
      simp
    · rw [if_neg h]
      have htrans : ∀ a b c : ObservationRecord,
          dateLe a b = true → dateLe b c = true → dateLe a c = true := by
        intro a b c hab hbc
        unfold dateLe at *
        exact decide_eq_true (le_trans (of_decide_eq_true hab) (of_decide_eq_true hbc))
      have htotal : ∀ a b : ObservationRecord, (dateLe a b || dateLe b a) = true := by
        intro a b
        unfold dateLe
        rcases le_total a.dateOfVisit b.dateOfVisit with hle | hle <;> simp [hle]
      have hpw := List.sorted_mergeSort htrans htotal rs
      have hpw' : List.Pairwise
          (fun a b : ObservationRecord => a.dateOfVisit ≤ b.dateOfVisit)
          (rs.mergeSort dateLe) :=
        hpw.imp fun hab => of_decide_eq_true hab
      rw [List.chain'_map]
      exact hpw'.chain'

end CheopsAgeing
